import Mathlib

/-!
Verification development for the smart-drive-organizer repository.

The definitions below are shallow embeddings of the Python sources
src/smart_organizer.py and src/smart_organizer_ultimate.py:

* `CacheRow`, `HashCache.get_hash`, `HashCache.store_hash`,
  `HashCache.cleanup_cache`, `HashCache.get_stats` model the SQLite-backed
  `HashCache` class (smart_organizer_ultimate.py lines 215-299).  The table
  `file_hashes` is modelled as a list of rows; the PRIMARY KEY constraint on
  `file_path` is expressed by the predicate `pathsNodup`.  Timestamps
  (`last_updated`, parameter `now`) are integers counting seconds; SQL
  `datetime(now, -d days)` becomes `now - d * 86400`.  `modified_time`
  (an SQL REAL) is modelled as a rational number.
* `SmartOrganizer.calculate_hash` models the method of the same name
  (smart_organizer_ultimate.py lines 374-406).  Its effectful sub-steps
  (os.stat, cache lookup, chunked file read + SHA-256, cache store) are
  passed in as oracle parameters; `Except.error` models the sub-step raising
  an exception, which the single try/except of the Python method catches,
  returning None.  The statistics counters (cache_hits / cache_misses) are
  not modelled: no claim refers to them.
* `analyze_folder_decision`, `walkNode`/`walkList`, `extOf` model the
  metadata triage of smart_organizer.py (`analyze_folder_content`,
  lines 136-209): the os.walk sampling loop with its depth cut-off and
  sample cap, Path(f).suffix.lower(), and the ordered decision rules.  The
  module-level ANALYSIS_CONFIG dict is modelled by `SmartAnalysisConfig`
  with the dict values as `ANALYSIS_CONFIG`.
* `SmartOrganizer.analyze_folder_content` models the decision logic of the
  method of the same name (smart_organizer_ultimate.py lines 588-682) on a
  sampled list of file extensions.
* `FileRec`, `size_groups`, `potential_duplicates`, `_hash_files`,
  `find_duplicates_from`, `generate_smart_report`, and
  `process_directory_smart` model the two-phase duplicate detector
  (smart_organizer.py lines 440-599).  The content hash of a file is an
  oracle `hf : String -> Option String` (None models an unreadable file or
  a read interrupted by the kill flag).  The cooperative cancellation flag
  is modelled by `CancelPoint`, naming the phase boundary at which the
  signal handler sets `killer.kill_now`; during the hashing phase the
  granularity is a whole size group (the flag checks at lines 509 and 525
  happen between groups).

Float-valued configuration (media_rich_ratio, the 0.1 diversity literal)
is modelled with exact rationals; the claims settled here only compare
these values against ratios of small integers, never near the error of a
binary float literal.
-/

/-- One row of the SQLite table `file_hashes`
(smart_organizer_ultimate.py lines 229-238).  Column defaults:
`last_updated TIMESTAMP DEFAULT CURRENT_TIMESTAMP`,
`access_count INTEGER DEFAULT 1`. -/
structure CacheRow where
  file_path : String
  file_size : Nat
  modified_time : Rat
  hash_sha256 : String
  last_updated : Int
  access_count : Nat
deriving DecidableEq

/-- The PRIMARY KEY constraint of `file_hashes`: at most one row per path. -/
def pathsNodup (rows : List CacheRow) : Prop :=
  (rows.map (fun r => r.file_path)).Nodup

namespace HashCache

/-- The row predicate of the SELECT in `HashCache.get_hash`:
`WHERE file_path = ? AND file_size = ? AND modified_time = ?`. -/
def rowMatches (p : String) (s : Nat) (m : Rat) (r : CacheRow) : Bool :=
  decide (r.file_path = p) && decide (r.file_size = s) &&
    decide (r.modified_time = m)

/-- Model of HashCache.get_hash (smart_organizer_ultimate.py lines 250-266):
SELECT the row matching path, size and modified time exactly; on a hit,
UPDATE that path's row, incrementing access_count and setting
last_updated to CURRENT_TIMESTAMP (the parameter `now`).  Returns the
query result together with the table state after the call. -/
def get_hash (rows : List CacheRow) (file_path : String) (file_size : Nat)
    (modified_time : Rat) (now : Int) : Option String × List CacheRow :=
  match rows.find? (rowMatches file_path file_size modified_time) with
  | some r =>
      (some r.hash_sha256,
       rows.map (fun q =>
         if q.file_path = file_path then
           { q with access_count := q.access_count + 1, last_updated := now }
         else q))
  | none => (none, rows)

/-- Model of HashCache.store_hash (smart_organizer_ultimate.py lines 268-274):
`INSERT OR REPLACE INTO file_hashes (file_path, file_size, modified_time,
hash_sha256) VALUES (?, ?, ?, ?)`.  The conflicting row (same primary key)
is deleted and a fresh row is inserted; the unnamed columns take their
declared defaults: last_updated = CURRENT_TIMESTAMP (`now`),
access_count = 1. -/
def store_hash (rows : List CacheRow) (file_path : String) (file_size : Nat)
    (modified_time : Rat) (hash_value : String) (now : Int) : List CacheRow :=
  rows.filter (fun r => decide (r.file_path ≠ file_path)) ++
    [⟨file_path, file_size, modified_time, hash_value, now, 1⟩]

/-- Model of HashCache.cleanup_cache (smart_organizer_ultimate.py lines 276-281):
`DELETE FROM file_hashes WHERE last_updated < datetime(now, -days_old days)`.
A row survives exactly when its last_updated is at least
`now - days_old * 86400`. -/
def cleanup_cache (rows : List CacheRow) (days_old : Nat) (now : Int) :
    List CacheRow :=
  rows.filter (fun r => !decide (r.last_updated < now - (days_old : Int) * 86400))

/-- Model of HashCache.get_stats (smart_organizer_ultimate.py lines 283-295):
COUNT(*), SUM(access_count), and the count of rows whose last_updated is
within the last 7 days.  Read-only: the returned state is the input state. -/
def get_stats (rows : List CacheRow) (now : Int) :
    (Nat × Nat × Nat) × List CacheRow :=
  ((rows.length,
    (rows.map (fun r => r.access_count)).sum,
    (rows.filter (fun r => decide (now - 7 * 86400 < r.last_updated))).length),
   rows)

end HashCache

/-- Model of AnalysisConfig (smart_organizer_ultimate.py lines 113-123), the
tunables of the ultimate variant, including the hash-eligible size range
`hash_size_threshold` (min bytes, max bytes). -/
structure AnalysisConfig where
  max_depth : Nat
  max_analysis_files : Nat
  min_files_for_organization : Nat
  media_rich_ratio : Rat
  document_heavy_count : Nat
  mixed_content_file_count : Nat
  mixed_content_ext_count : Nat
  hash_size_threshold : Nat × Nat
deriving DecidableEq

/-- The dataclass defaults of `AnalysisConfig`
(smart_organizer_ultimate.py lines 113-123). -/
def defaultAnalysisConfig : AnalysisConfig :=
  { max_depth := 10
    max_analysis_files := 500
    min_files_for_organization := 5
    media_rich_ratio := 2 / 10
    document_heavy_count := 15
    mixed_content_file_count := 30
    mixed_content_ext_count := 4
    hash_size_threshold := (1024, 100 * 1024 * 1024) }

/-- The module-level ANALYSIS_CONFIG dict of smart_organizer.py
(lines 74-82), as a structure (it has no hash-size range). -/
structure SmartAnalysisConfig where
  max_analysis_depth : Nat
  max_analysis_files : Nat
  min_files_for_organization : Nat
  media_rich_ratio : Rat
  document_heavy_count : Nat
  mixed_content_file_count : Nat
  mixed_content_ext_count : Nat
deriving DecidableEq

/-- The concrete values of the ANALYSIS_CONFIG dict
(smart_organizer.py lines 74-82). -/
def ANALYSIS_CONFIG : SmartAnalysisConfig :=
  { max_analysis_depth := 2
    max_analysis_files := 200
    min_files_for_organization := 10
    media_rich_ratio := 3 / 10
    document_heavy_count := 20
    mixed_content_file_count := 50
    mixed_content_ext_count := 5 }

/-- media_extensions of analyze_folder_content (smart_organizer.py line 158). -/
def media_extensions : List String :=
  [".jpg", ".jpeg", ".png", ".gif", ".bmp", ".tiff", ".mp4", ".avi", ".mov",
   ".mp3", ".wav"]

/-- document_extensions of analyze_folder_content (smart_organizer.py line 159). -/
def document_extensions : List String :=
  [".pdf", ".doc", ".docx", ".txt", ".rtf", ".xls", ".xlsx", ".ppt", ".pptx"]

/-- media_files (smart_organizer.py line 162): the number of sampled
extensions that lie in the media set (summing Counter entries whose key is
in the set counts every occurrence). -/
def media_file_count (exts : List String) : Nat :=
  exts.countP (fun e => decide (e ∈ media_extensions))

/-- document_files (smart_organizer.py line 163). -/
def document_file_count (exts : List String) : Nat :=
  exts.countP (fun e => decide (e ∈ document_extensions))

/-- The outcome of folder triage: the fields of the returned dict that the
claims refer to (needs_organization, reason, file_count).  The code omits
file_count in the empty case; it is 0 here. -/
structure ClassifyResult where
  needs_organization : Bool
  reason : String
  file_count : Nat
deriving DecidableEq

/-- The decision logic of analyze_folder_content
(smart_organizer.py lines 150-206), applied to the sampled file
extensions: empty, then media_rich (checked before the size rule, see the
comment at line 170), then too_small, then document_heavy, then
mixed_content, else not_beneficial. -/
def analyze_folder_decision (cfg : SmartAnalysisConfig) (exts : List String) :
    ClassifyResult :=
  let total_files := exts.length
  if total_files = 0 then ⟨false, "empty", 0⟩
  else
    let media_ratio : Rat := (media_file_count exts : Rat) / (total_files : Rat)
    if media_ratio > cfg.media_rich_ratio then
      ⟨true, "media_rich", total_files⟩
    else if total_files < cfg.min_files_for_organization then
      ⟨false, "too_small", total_files⟩
    else if document_file_count exts > cfg.document_heavy_count then
      ⟨true, "document_heavy", total_files⟩
    else if total_files > cfg.mixed_content_file_count ∧
        exts.dedup.length > cfg.mixed_content_ext_count then
      ⟨true, "mixed_content", total_files⟩
    else ⟨false, "not_beneficial", total_files⟩

/-- Extension sets of FILE_CATEGORIES (smart_organizer_ultimate.py
lines 126-189), in dict order. -/
def images_extensions : List String :=
  [".jpg", ".jpeg", ".png", ".gif", ".bmp", ".tiff", ".tif", ".webp", ".svg",
   ".ico", ".raw", ".cr2", ".nef", ".arw"]

/-- Video extensions of FILE_CATEGORIES. -/
def videos_extensions : List String :=
  [".mp4", ".avi", ".mkv", ".mov", ".wmv", ".flv", ".webm", ".m4v", ".mpg",
   ".mpeg", ".3gp", ".f4v"]

/-- Audio extensions of FILE_CATEGORIES. -/
def audio_extensions : List String :=
  [".mp3", ".wav", ".flac", ".aac", ".ogg", ".wma", ".m4a", ".opus", ".ape"]

/-- Document extensions of FILE_CATEGORIES. -/
def documents_extensions : List String :=
  [".pdf", ".doc", ".docx", ".txt", ".rtf", ".odt", ".pages"]

/-- Spreadsheet extensions of FILE_CATEGORIES. -/
def spreadsheets_extensions : List String :=
  [".xls", ".xlsx", ".csv", ".ods", ".numbers"]

/-- Presentation extensions of FILE_CATEGORIES. -/
def presentations_extensions : List String :=
  [".ppt", ".pptx", ".odp", ".key"]

/-- Code extensions of FILE_CATEGORIES. -/
def code_extensions_ult : List String :=
  [".py", ".js", ".html", ".css", ".cpp", ".java", ".sql", ".json", ".xml",
   ".php", ".rb", ".go", ".rs", ".swift", ".kt"]

/-- Archive extensions of FILE_CATEGORIES. -/
def archives_extensions : List String :=
  [".zip", ".rar", ".7z", ".tar", ".gz", ".bz2", ".xz"]

/-- Executable extensions of FILE_CATEGORIES. -/
def executables_extensions : List String :=
  [".exe", ".msi", ".deb", ".rpm", ".dmg", ".app", ".appx"]

/-- Font extensions of FILE_CATEGORIES. -/
def fonts_extensions : List String :=
  [".ttf", ".otf", ".woff", ".woff2", ".eot"]

/-- The category component of `SmartOrganizer.categorize_file`
(smart_organizer_ultimate.py lines 408-421): the first FILE_CATEGORIES
entry whose extension set contains the extension, else the string other.
(The subfolder component is not used by folder analysis.) -/
def categorize_ext (e : String) : String :=
  if e ∈ images_extensions then "images"
  else if e ∈ videos_extensions then "videos"
  else if e ∈ audio_extensions then "audio"
  else if e ∈ documents_extensions then "documents"
  else if e ∈ spreadsheets_extensions then "spreadsheets"
  else if e ∈ presentations_extensions then "presentations"
  else if e ∈ code_extensions_ult then "code"
  else if e ∈ archives_extensions then "archives"
  else if e ∈ executables_extensions then "executables"
  else if e ∈ fonts_extensions then "fonts"
  else "other"

namespace SmartOrganizer

/-- media_files of the ultimate analyze_folder_content
(smart_organizer_ultimate.py line 631): files whose category is images,
videos or audio. -/
def media_file_count (exts : List String) : Nat :=
  exts.countP (fun e =>
    decide (categorize_ext e ∈ (["images", "videos", "audio"] : List String)))

/-- document_files of the ultimate analyze_folder_content
(smart_organizer_ultimate.py line 632). -/
def document_file_count (exts : List String) : Nat :=
  exts.countP (fun e =>
    decide (categorize_ext e ∈
      (["documents", "spreadsheets", "presentations"] : List String)))

/-- The decision logic of `SmartOrganizer.analyze_folder_content`
(smart_organizer_ultimate.py lines 615-679) on the sampled file
extensions: empty, then media_rich, then too_small, then document_heavy,
then mixed_content (which also requires diversity_score above 0.1),
else not_beneficial.  The sampling loop of this variant is not modelled
here (the smart_organizer.py sampling loop is modelled by `walkNode`). -/
def analyze_folder_content (cfg : AnalysisConfig) (exts : List String) :
    ClassifyResult :=
  let total_files := exts.length
  if total_files = 0 then ⟨false, "empty", 0⟩
  else
    let media_ratio : Rat := (media_file_count exts : Rat) / (total_files : Rat)
    let diversity_score : Rat := (exts.dedup.length : Rat) / (total_files : Rat)
    if media_ratio > cfg.media_rich_ratio then
      ⟨true, "media_rich", total_files⟩
    else if total_files < cfg.min_files_for_organization then
      ⟨false, "too_small", total_files⟩
    else if document_file_count exts > cfg.document_heavy_count then
      ⟨true, "document_heavy", total_files⟩
    else if total_files > cfg.mixed_content_file_count ∧
        exts.dedup.length > cfg.mixed_content_ext_count ∧
        diversity_score > 1 / 10 then
      ⟨true, "mixed_content", total_files⟩
    else ⟨false, "not_beneficial", total_files⟩

end SmartOrganizer

/-- A directory tree: the filenames directly in the directory and its
subdirectories, in os.walk order. -/
inductive DirTree where
  | node (filenames : List String) (subdirs : List DirTree)

/-- Index of the last dot in a list of characters (Python str.rfind). -/
def rfindDot : List Char → Option Nat
  | [] => none
  | c :: cs =>
      match rfindDot cs with
      | some i => some (i + 1)
      | none => if c = '.' then some 0 else none

/-- Path(f).suffix.lower() (smart_organizer.py line 154): the part of the
name from its last dot on, lowercased, unless that dot is the first or the
last character, in which case the suffix is empty (pathlib semantics). -/
def extOf (f : String) : String :=
  let cs := f.data
  match rfindDot cs with
  | some i =>
      if 0 < i ∧ i < cs.length - 1 then
        String.mk ((cs.drop i).map Char.toLower)
      else ""
  | none => ""

mutual

/-- The os.walk sampling loop of analyze_folder_content
(smart_organizer.py lines 139-148) at one directory: at a level deeper
than the configured maximum the directory is skipped and descent stops
(dirs.clear(); continue); otherwise the filenames of the directory are
appended to the accumulator and, when the accumulated count exceeds the
sample cap, the whole walk breaks (the Bool component signals the break).
Note that the cap check happens after the extend. -/
def walkNode (maxD maxF : Nat) (t : DirTree) (level : Nat)
    (acc : List String) : List String × Bool :=
  match t with
  | .node fns subs =>
      if maxD < level then (acc, false)
      else
        let acc2 := acc ++ fns
        if maxF < acc2.length then (acc2, true)
        else walkList maxD maxF subs (level + 1) acc2

/-- The walk continued over a list of sibling subdirectories; a break
raised in one subtree stops the traversal of the remaining siblings. -/
def walkList (maxD maxF : Nat) (ts : List DirTree) (level : Nat)
    (acc : List String) : List String × Bool :=
  match ts with
  | [] => (acc, false)
  | t :: rest =>
      match walkNode maxD maxF t level acc with
      | (acc2, true) => (acc2, true)
      | (acc2, false) => walkList maxD maxF rest level acc2

end

mutual

/-- All filenames of the tree lying within the depth bound: the exhaustive
listing the sampling loop draws from (used to state what the sample is a
subset of). -/
def filesUpTo (maxD : Nat) : DirTree → Nat → List String
  | .node fns subs, level =>
      if maxD < level then []
      else fns ++ filesUpToList maxD subs (level + 1)

/-- Extension of filesUpTo over a list of sibling subdirectories. -/
def filesUpToList (maxD : Nat) : List DirTree → Nat → List String
  | [], _ => []
  | t :: rest, level => filesUpTo maxD t level ++ filesUpToList maxD rest level

end

mutual

/-- The largest single directory listing in the tree: the amount by which
one extend call can grow the sample. -/
def maxListing : DirTree → Nat
  | .node fns subs => max fns.length (maxListingList subs)

/-- Extension of maxListing over a list of sibling subdirectories. -/
def maxListingList : List DirTree → Nat
  | [] => 0
  | t :: rest => max (maxListing t) (maxListingList rest)

end

/-- analyze_folder_content of smart_organizer.py (lines 136-209) as a
whole: sample at most the configured number of files within the depth
bound (soft cap, see `walkNode`), take each sampled filename's lowercased
suffix, and decide with the ordered rules. -/
def analyze_folder_content (cfg : SmartAnalysisConfig) (t : DirTree) :
    ClassifyResult :=
  analyze_folder_decision cfg
    (((walkNode cfg.max_analysis_depth cfg.max_analysis_files t 0 []).1).map extOf)

namespace SmartOrganizer

/-- Model of SmartOrganizer.calculate_hash (smart_organizer_ultimate.py
lines 374-406).  The method body is one try/except: os.stat, cache
lookup, chunked read through SHA-256, cache store.  Each effectful step
is an oracle argument: statResult is the stat outcome (size, mtime; none
models an OSError), cacheLookup is the outcome of HashCache.get_hash
(error models the storage layer raising), contentHash is the outcome of
the chunked read (none models a read error or the kill flag), cacheStore
is the outcome of HashCache.store_hash.  Any raised exception is caught
by the except clause, which logs and returns None.  Note the method never
reads AnalysisConfig.hash_size_threshold: no size check guards hashing. -/
def calculate_hash (statResult : Option (Nat × Rat))
    (cacheLookup : Except Unit (Option String))
    (contentHash : Option String)
    (cacheStore : Except Unit Unit) : Option String :=
  match statResult with
  | none => none
  | some _ =>
      match cacheLookup with
      | Except.error _ => none
      | Except.ok (some cached) => some cached
      | Except.ok none =>
          match contentHash with
          | none => none
          | some hv =>
              match cacheStore with
              | Except.error _ => none
              | Except.ok _ => some hv

end SmartOrganizer

/-- One file's record as built by get_file_metadata
(smart_organizer.py lines 406-438): path, byte size, and the hash slot,
None until (and unless) the hashing phase fills it.  The modified date,
category and extension fields are carried along by the code but not read
by any claim settled here. -/
structure FileRec where
  path : String
  size : Nat
  hash : Option String
deriving DecidableEq

/-- First-occurrence key order of a Python dict built by repeated
insertion (defaultdict iteration order). -/
def keysInOrder {α : Type} [DecidableEq α] (l : List α) : List α :=
  l.foldl (fun acc s => if s ∈ acc then acc else acc ++ [s]) []

/-- Step 3 of process_directory_smart (smart_organizer.py lines 485-489):
records of size zero are dropped, the rest are grouped by exact byte size
into the defaultdict size_groups (key order is first occurrence, each
group keeps scan order). -/
def size_groups (files : List FileRec) : List (Nat × List FileRec) :=
  let nonZero := files.filter (fun f => decide (0 < f.size))
  (keysInOrder (nonZero.map (fun f => f.size))).map
    (fun s => (s, nonZero.filter (fun f => decide (f.size = s))))

/-- potential_duplicates (smart_organizer.py line 491): the size groups
with more than one member; only these are ever handed to _hash_files. -/
def potential_duplicates (files : List FileRec) : List (List FileRec) :=
  ((size_groups files).map (fun g => g.2)).filter (fun g => decide (1 < g.length))

/-- Model of _hash_files (smart_organizer.py lines 440-446) run to completion on
one size group: every member's hash slot is filled with the outcome of
calculate_hash on its path (`hf`; None models an unreadable file). -/
def _hash_files (hf : String → Option String) (g : List FileRec) : List FileRec :=
  g.map (fun f => { f with hash := hf f.path })

/-- Grouping one hashed size group by hash (smart_organizer.py
lines 513-516 and 528-531): records whose hash is None are dropped, the
rest are keyed by their hash value in a defaultdict. -/
def hash_group_pairs (g : List FileRec) : List (String × List FileRec) :=
  (keysInOrder (g.filterMap (fun f => f.hash))).map
    (fun h => (h, g.filter (fun f => decide (f.hash = some h))))

/-- Python dict assignment duplicates[h] = files: replace the value in
place if the key is present, append the pair otherwise. -/
def dictInsert (m : List (String × List FileRec)) (k : String)
    (v : List FileRec) : List (String × List FileRec) :=
  if m.any (fun p => decide (p.1 = k)) then
    m.map (fun p => if p.1 = k then (k, v) else p)
  else m ++ [(k, v)]

/-- Recording one hashed size group into the duplicates dict
(smart_organizer.py lines 518-520 and 532-534): every hash sub-group with
more than one member is written to duplicates under its hash. -/
def add_dup_groups (m : List (String × List FileRec)) (hashedGroup : List FileRec) :
    List (String × List FileRec) :=
  (hash_group_pairs hashedGroup).foldl
    (fun acc p => if 1 < p.2.length then dictInsert acc p.1 p.2 else acc) m

/-- Step 4 of process_directory_smart over a given list of size groups:
hash each group with _hash_files, then record its hash sub-groups of two
or more members into the duplicates dict (initially empty). -/
def find_duplicates_from (groups : List (List FileRec))
    (hf : String → Option String) : List (String × List FileRec) :=
  groups.foldl (fun acc g => add_dup_groups acc (_hash_files hf g)) []

/-- The duplicates dict of an uninterrupted run of process_directory_smart
on the collected records: every potential-duplicate size group is hashed
and recorded. -/
def find_duplicates (files : List FileRec) (hf : String → Option String) :
    List (String × List FileRec) :=
  find_duplicates_from (potential_duplicates files) hf

/-- The summary dict built by generate_smart_report (smart_organizer.py
lines 573-599), restricted to the numeric fields the claims refer to.
potential_savings_bytes is
sum(sum(f.size for f in group[1:]) for group in duplicates.values())
(line 576): the sizes of every group member except the first. -/
structure Report where
  interrupted : Bool
  total_files : Nat
  total_size_bytes : Nat
  duplicate_groups : Nat
  duplicate_files : Nat
  potential_savings_bytes : Nat
deriving DecidableEq

/-- generate_smart_report (smart_organizer.py lines 550-599): the summary
statistics over the file inventory and the duplicates dict; interrupted
records the kill flag at report time (line 585). -/
def generate_smart_report (kill_now : Bool) (files : List FileRec)
    (duplicates : List (String × List FileRec)) : Report :=
  { interrupted := kill_now
    total_files := files.length
    total_size_bytes := (files.map (fun f => f.size)).sum
    duplicate_groups := duplicates.length
    duplicate_files := (duplicates.map (fun p => p.2.length)).sum
    potential_savings_bytes :=
      (duplicates.map (fun p => ((p.2.drop 1).map (fun f => f.size)).sum)).sum }

/-- The phase boundary of process_directory_smart at which the signal
handler sets killer.kill_now.  duringCollection and duringMetadata name
the flag checks at smart_organizer.py lines 450, 463, 468, 477-478 and
483; duringHashing k means the flag becomes true after k whole size
groups have been hashed (the checks at lines 509 and 525); never means no
signal arrives before the report is written. -/
inductive CancelPoint where
  | atStart
  | duringCollection
  | duringMetadata
  | duringHashing (k : Nat)
  | never
deriving DecidableEq

/-- process_directory_smart (smart_organizer.py lines 448-548) given the
records its metadata pass would collect, the per-file hash oracle, and the
point at which cancellation strikes.  A signal at the start, during file
collection (line 468) or during the metadata pass (line 483) makes the
function return without calling generate_smart_report: none.  A signal
during hashing breaks the loop after the groups already hashed and still
writes the report, whose interrupted flag is the kill flag, true
(lines 537-548); if the signal would arrive only after all groups are
hashed, or the run is never cancelled, the full report is written with
interrupted false. -/
def process_directory_smart (files : List FileRec)
    (hf : String → Option String) (cancel : CancelPoint) : Option Report :=
  match cancel with
  | CancelPoint.atStart => none
  | CancelPoint.duringCollection => none
  | CancelPoint.duringMetadata => none
  | CancelPoint.duringHashing k =>
      let groups := potential_duplicates files
      if k < groups.length then
        some (generate_smart_report true files (find_duplicates_from (groups.take k) hf))
      else
        some (generate_smart_report false files (find_duplicates_from groups hf))
  | CancelPoint.never =>
      some (generate_smart_report false files (find_duplicates files hf))

/-- The invariant of every value stored in the duplicates dict: at least
two members, every member carries the key hash, and all members share one
byte size. -/
def GoodPair (p : String × List FileRec) : Prop :=
  2 ≤ p.2.length ∧ (∀ f ∈ p.2, f.hash = some p.1) ∧
    ∃ s : Nat, ∀ f ∈ p.2, f.size = s

/-- The concrete scan used by the claim C1 witness: two records share
size 5, one has the unique size 7, one is zero-byte. -/
def c1files : List FileRec :=
  [⟨"a", 5, none⟩, ⟨"b", 5, none⟩, ⟨"c", 7, none⟩, ⟨"z", 0, none⟩]

/-- The concrete scan used by the claim C4 witness. -/
def c4files : List FileRec :=
  [⟨"a", 5, none⟩, ⟨"b", 5, none⟩, ⟨"c", 7, none⟩]

/-- The hash oracle used by the claim C4 witness: every file hashes to H. -/
def c4hash : String → Option String := fun _ => some "H"

/-- The concrete scan used by the claim C5 witness: one size group of two
records. -/
def c5files : List FileRec := [⟨"a", 5, none⟩, ⟨"b", 5, none⟩]

/-- The hash oracle used by the claim C5 witness. -/
def c5hash : String → Option String := fun _ => some "H"

/-- The configuration and directory of the claim C8 counterexample: a
sample cap of 2 and one directory holding three files. -/
def c8cfg : SmartAnalysisConfig :=
  { ANALYSIS_CONFIG with max_analysis_files := 2 }

/-- The directory of the claim C8 counterexample. -/
def c8tree : DirTree := DirTree.node ["a.txt", "b.txt", "c.txt"] []

/-- The SELECT predicate holds exactly when path, size and modified time
all match. -/
lemma rowMatches_iff (p : String) (s : Nat) (m : Rat) (r : CacheRow) :
    HashCache.rowMatches p s m r = true ↔
      r.file_path = p ∧ r.file_size = s ∧ r.modified_time = m := by
  simp [HashCache.rowMatches, and_assoc]

/-- Under the primary-key invariant, rows are determined by their path. -/
lemma pathsNodup_inj {rows : List CacheRow} (hnd : pathsNodup rows) :
    ∀ r ∈ rows, ∀ q ∈ rows, r.file_path = q.file_path → r = q := by
  intro r hr q hq hpq
  exact List.inj_on_of_nodup_map hnd hr hq hpq

/-- The UPDATE of get_hash rewrites fields of rows but never a path. -/
lemma map_path_update (rows : List CacheRow) (p : String) (now : Int) :
    ((rows.map (fun q =>
        if q.file_path = p then
          { q with access_count := q.access_count + 1, last_updated := now }
        else q)).map (fun r => r.file_path)) = rows.map (fun r => r.file_path) := by
  induction rows with
  | nil => rfl
  | cons a t ih =>
      simp only [List.map_cons, ih]
      by_cases h : a.file_path = p <;> simp [h]

/-- Under the primary-key invariant, filtering the table by a member row's
path returns exactly that row. -/
lemma filter_path_single {rows : List CacheRow} (hnd : pathsNodup rows)
    {r : CacheRow} (hr : r ∈ rows) :
    rows.filter (fun q => decide (q.file_path = r.file_path)) = [r] := by
  induction rows with
  | nil => cases hr
  | cons a t ih =>
      have hnd2 : pathsNodup t := by
        have := hnd
        simp only [pathsNodup, List.map_cons, List.nodup_cons] at this
        exact this.2
      have hnotin : a.file_path ∉ t.map (fun q => q.file_path) := by
        have := hnd
        simp only [pathsNodup, List.map_cons, List.nodup_cons] at this
        exact this.1
      rcases List.mem_cons.mp hr with rfl | hrt
      · simp only [List.filter_cons, decide_eq_true_eq, if_pos rfl]
        have : t.filter (fun q => decide (q.file_path = r.file_path)) = [] := by
          apply List.filter_eq_nil_iff.mpr
          intro q hq
          simp only [decide_eq_true_eq]
          intro hqe
          exact hnotin (hqe ▸ List.mem_map_of_mem (fun q => q.file_path) hq)
        simp [this]
      · have hne : a.file_path ≠ r.file_path := by
          intro he
          exact hnotin (he ▸ List.mem_map_of_mem (fun q => q.file_path) hrt)
        simp only [List.filter_cons, decide_eq_true_eq, if_neg hne]
        exact ih hnd2 hrt

/-- Filtering by path commutes with the UPDATE map of get_hash. -/
lemma filter_path_map_update (rows : List CacheRow) (p p2 : String) (now : Int) :
    ((rows.map (fun q =>
        if q.file_path = p then
          { q with access_count := q.access_count + 1, last_updated := now }
        else q)).filter (fun q => decide (q.file_path = p2)))
    = (rows.filter (fun q => decide (q.file_path = p2))).map (fun q =>
        if q.file_path = p then
          { q with access_count := q.access_count + 1, last_updated := now }
        else q) := by
  induction rows with
  | nil => rfl
  | cons a t ih =>
      have hfp : ((if a.file_path = p then
          ({ a with access_count := a.access_count + 1, last_updated := now } :
            CacheRow)
        else a)).file_path = a.file_path := by
        by_cases h : a.file_path = p <;> simp [h]
      simp only [List.map_cons, List.filter_cons, hfp]
      by_cases h2 : a.file_path = p2
      · simp [h2, ih]
      · simp [h2, ih]

/-- Claim C2: HashCache.get_hash returns a stored hash exactly when the
table holds a row for the queried path whose stored size and stored
modified time both equal the queried values; with no such row the lookup
reports a miss (none), never a stale hash. -/
theorem hashCache_get_hash_exact_match (rows : List CacheRow) (p : String)
    (s : Nat) (m : Rat) (now : Int) (hnd : pathsNodup rows) :
    (∀ h : String,
      (HashCache.get_hash rows p s m now).1 = some h ↔
        ∃ r ∈ rows, r.file_path = p ∧ r.file_size = s ∧ r.modified_time = m ∧
          r.hash_sha256 = h) ∧
    ((∀ r ∈ rows, ¬(r.file_path = p ∧ r.file_size = s ∧ r.modified_time = m)) →
      (HashCache.get_hash rows p s m now).1 = none) := by
  constructor
  · intro h
    unfold HashCache.get_hash
    cases hfind : rows.find? (HashCache.rowMatches p s m) with
    | none =>
        simp only [Option.some.injEq]
        constructor
        · intro hfalse; cases hfalse
        · rintro ⟨r, hr, hp, hs, hm, hh⟩
          have := List.find?_eq_none.mp hfind r hr
          exact absurd ((rowMatches_iff p s m r).mpr ⟨hp, hs, hm⟩) this
    | some r =>
        have hmem := List.mem_of_find?_eq_some hfind
        have hmatch := (rowMatches_iff p s m r).mp (List.find?_some hfind)
        simp only [Option.some.injEq]
        constructor
        · intro hh
          exact ⟨r, hmem, hmatch.1, hmatch.2.1, hmatch.2.2, hh⟩
        · rintro ⟨q, hq, hqp, hqs, hqm, hqh⟩
          have : r = q :=
            pathsNodup_inj hnd r hmem q hq (hmatch.1.trans hqp.symm)
          rw [this, hqh]
  · intro hnone
    unfold HashCache.get_hash
    have : rows.find? (HashCache.rowMatches p s m) = none := by
      apply List.find?_eq_none.mpr
      intro r hr hmatch
      exact hnone r hr ((rowMatches_iff p s m r).mp hmatch)
    rw [this]

/-- Claim C2 witness: on a one-row table the lookup with matching size and
modified time hits, returning the stored hash. -/
theorem hashCache_get_hash_exact_match_witness :
    (HashCache.get_hash [⟨"/a", 10, 5, "H", 0, 1⟩] "/a" 10 5 99).1 = some "H" := by
  have hmain := hashCache_get_hash_exact_match
    [⟨"/a", 10, 5, "H", 0, 1⟩] "/a" 10 5 99 (by unfold pathsNodup; decide)
  exact (hmain.1 "H").mpr ⟨⟨"/a", 10, 5, "H", 0, 1⟩, by decide, rfl, rfl, rfl, rfl⟩

/-- Claim C6: store_hash upserts — after storing, the table holds exactly
one row for the stored path, and that row is wholly the new tuple
(size, modified time, hash, fresh last_updated, access_count reset to its
default 1: no field of a prior row survives); moreover the one-row-per-path
invariant is preserved by store_hash, get_hash and cleanup_cache, and
get_stats leaves the table unchanged. -/
theorem store_hash_upsert_invariant (rows : List CacheRow) (p : String)
    (s : Nat) (m : Rat) (hv : String) (now : Int) (hnd : pathsNodup rows) :
    (HashCache.store_hash rows p s m hv now).filter
        (fun r => decide (r.file_path = p)) = [⟨p, s, m, hv, now, 1⟩] ∧
    pathsNodup (HashCache.store_hash rows p s m hv now) ∧
    (∀ (p2 : String) (s2 : Nat) (m2 : Rat) (t2 : Int),
      pathsNodup (HashCache.get_hash rows p2 s2 m2 t2).2) ∧
    (∀ (d : Nat) (t2 : Int), pathsNodup (HashCache.cleanup_cache rows d t2)) ∧
    (∀ t2 : Int, (HashCache.get_stats rows t2).2 = rows) := by
  refine ⟨?_, ?_, ?_, ?_, fun _ => rfl⟩
  · unfold HashCache.store_hash
    rw [List.filter_append]
    have h1 : (rows.filter (fun r => decide (r.file_path ≠ p))).filter
        (fun r => decide (r.file_path = p)) = [] := by
      apply List.filter_eq_nil_iff.mpr
      intro r hr
      have := (List.mem_filter.mp hr).2
      simp only [decide_eq_true_eq] at this ⊢
      exact this
    rw [h1]
    simp
  · unfold HashCache.store_hash pathsNodup
    rw [List.map_append, List.nodup_append]
    refine ⟨?_, by simp, ?_⟩
    · exact hnd.sublist (List.Sublist.map _ (List.filter_sublist rows))
    · intro x hx hx2
      simp only [List.map_cons, List.map_nil, List.mem_singleton] at hx2
      subst hx2
      rcases List.mem_map.mp hx with ⟨r, hr, hrp⟩
      have := (List.mem_filter.mp hr).2
      simp only [decide_eq_true_eq] at this
      exact this hrp
  · intro p2 s2 m2 t2
    unfold HashCache.get_hash
    cases rows.find? (HashCache.rowMatches p2 s2 m2) with
    | none => exact hnd
    | some r =>
        unfold pathsNodup
        rw [map_path_update rows p2 t2]
        exact hnd
  · intro d t2
    exact hnd.sublist (List.Sublist.map _ (List.filter_sublist rows))

/-- Claim C6 witness: storing a new tuple for a path that already has a
row (with access_count 7 and an old hash) leaves exactly one row for that
path, carrying only the new values and the reset access_count. -/
theorem store_hash_upsert_invariant_witness :
    (HashCache.store_hash [⟨"/a", 10, 5, "H", 0, 7⟩] "/a" 20 6 "H2" 50).filter
        (fun r => decide (r.file_path = "/a")) = [⟨"/a", 20, 6, "H2", 50, 1⟩] :=
  (store_hash_upsert_invariant [⟨"/a", 10, 5, "H", 0, 7⟩] "/a" 20 6 "H2" 50
    (by unfold pathsNodup; decide)).1

/-- Claim C10: a cache hit mutates the stored entry — get_hash on a hit
returns the stored hash, and after the call the row for that path holds
access_count incremented by one and last_updated reset to the call time;
consequently a row hit at time t is never deleted by a later
cleanup_cache(days_old) run at a time within days_old days of t; get_stats
leaves the table unchanged. -/
theorem get_hash_hit_refreshes_entry (rows : List CacheRow) (r : CacheRow)
    (t : Int) (hnd : pathsNodup rows) (hr : r ∈ rows) :
    (HashCache.get_hash rows r.file_path r.file_size r.modified_time t).1
        = some r.hash_sha256 ∧
    ((HashCache.get_hash rows r.file_path r.file_size r.modified_time t).2).filter
        (fun q => decide (q.file_path = r.file_path))
      = [{ r with access_count := r.access_count + 1, last_updated := t }] ∧
    (∀ (days : Nat) (now2 : Int), now2 - (days : Int) * 86400 ≤ t →
      ({ r with access_count := r.access_count + 1, last_updated := t } : CacheRow) ∈
        HashCache.cleanup_cache
          (HashCache.get_hash rows r.file_path r.file_size r.modified_time t).2
          days now2) ∧
    (∀ now2 : Int, (HashCache.get_stats rows now2).2 = rows) := by
  have hfind : rows.find?
      (HashCache.rowMatches r.file_path r.file_size r.modified_time) = some r := by
    cases hf : rows.find?
        (HashCache.rowMatches r.file_path r.file_size r.modified_time) with
    | none =>
        exact absurd ((rowMatches_iff _ _ _ r).mpr ⟨rfl, rfl, rfl⟩)
          (List.find?_eq_none.mp hf r hr)
    | some q =>
        have hqmem := List.mem_of_find?_eq_some hf
        have hq := (rowMatches_iff _ _ _ q).mp (List.find?_some hf)
        rw [pathsNodup_inj hnd q hqmem r hr hq.1]
  have hsnd : (HashCache.get_hash rows r.file_path r.file_size r.modified_time t).2
      = rows.map (fun q =>
          if q.file_path = r.file_path then
            { q with access_count := q.access_count + 1, last_updated := t }
          else q) := by
    unfold HashCache.get_hash
    rw [hfind]
  refine ⟨?_, ?_, ?_, fun _ => rfl⟩
  · unfold HashCache.get_hash
    rw [hfind]
  · rw [hsnd, filter_path_map_update rows r.file_path r.file_path t,
      filter_path_single hnd hr]
    simp
  · intro days now2 hwin
    rw [hsnd]
    unfold HashCache.cleanup_cache
    apply List.mem_filter.mpr
    constructor
    · have hmem := List.mem_map_of_mem (fun q =>
        if q.file_path = r.file_path then
          ({ q with access_count := q.access_count + 1, last_updated := t } :
            CacheRow)
        else q) hr
      simpa using hmem
    · simp only [Bool.not_eq_eq_eq_not, Bool.not_true, decide_eq_false_iff_not,
        not_lt]
      exact hwin

/-- Claim C10 witness: a hit at time 100 on a one-row table refreshes the
row, which then survives a cleanup with a 30-day window run at time 100. -/
theorem get_hash_hit_refreshes_entry_witness :
    ({ file_path := "/a", file_size := 10, modified_time := 5,
       hash_sha256 := "H", last_updated := 100, access_count := 4 } : CacheRow) ∈
      HashCache.cleanup_cache
        (HashCache.get_hash [⟨"/a", 10, 5, "H", 0, 3⟩] "/a" 10 5 100).2 30 100 :=
  (get_hash_hit_refreshes_entry [⟨"/a", 10, 5, "H", 0, 3⟩]
      ⟨"/a", 10, 5, "H", 0, 3⟩ 100 (by unfold pathsNodup; decide)
      (by simp)).2.2.1 30 100 (by decide)

/-- Claim C7 counterexample: with the cache storage layer raising on
lookup, calculate_hash on a perfectly readable file (stat succeeds,
content hashes to H) returns none — the generic except clause catches the
cache exception and drops the file — instead of returning the correct
content hash H as the claim demands. -/
theorem cache_failure_returns_none_counterexample :
    SmartOrganizer.calculate_hash (some (100, 0)) (Except.error ()) (some "H")
        (Except.ok ()) = none ∧
    SmartOrganizer.calculate_hash (some (100, 0)) (Except.error ()) (some "H")
        (Except.ok ()) ≠ some "H" := by
  exact ⟨rfl, by decide⟩

/-- Claim C7 amended: on a storage-layer failure of the cache, raised
during lookup or during store, calculate_hash catches the exception and
returns none for that file (it is treated as hash-unavailable, and the
scan continues; the failure is never propagated), rather than returning
the content hash; the correct hash is returned when the cache layer does
not raise (on a miss followed by a successful read, or on a hit). -/
theorem cache_failure_degrades_to_no_hash :
    (∀ (st : Option (Nat × Rat)) (ch : Option String) (sr : Except Unit Unit),
      SmartOrganizer.calculate_hash st (Except.error ()) ch sr = none) ∧
    (∀ (st : Option (Nat × Rat)) (hv : String),
      SmartOrganizer.calculate_hash st (Except.ok none) (some hv)
        (Except.error ()) = none) ∧
    (∀ (p : Nat × Rat) (hv : String),
      SmartOrganizer.calculate_hash (some p) (Except.ok none) (some hv)
        (Except.ok ()) = some hv) ∧
    (∀ (p : Nat × Rat) (c : String) (ch : Option String) (sr : Except Unit Unit),
      SmartOrganizer.calculate_hash (some p) (Except.ok (some c)) ch sr = some c) := by
  refine ⟨?_, ?_, fun _ _ => rfl, fun _ _ _ _ => rfl⟩
  · intro st ch sr
    cases st <;> rfl
  · intro st hv
    cases st <;> rfl

/-- Claim C9: calculate_hash never consults the configured hash-eligible
size range — for a readable file of 512 bytes, strictly below the
1024-byte minimum of AnalysisConfig.hash_size_threshold, a content hash
is still computed and returned (for any byte size whatsoever, in fact):
the dataclass field is declared with its documented 1KB-100MB default but
no code path reads it. -/
theorem calculate_hash_ignores_size_threshold :
    512 < defaultAnalysisConfig.hash_size_threshold.1 ∧
    SmartOrganizer.calculate_hash (some (512, 0)) (Except.ok none)
        (some "abc123") (Except.ok ()) = some "abc123" ∧
    (∀ s : Nat, SmartOrganizer.calculate_hash (some (s, 0)) (Except.ok none)
        (some "abc123") (Except.ok ()) = some "abc123") :=
  ⟨by decide, rfl, fun _ => rfl⟩

/-- Claim C3: the triage rules are applied in a fixed order with first
match winning — empty, media_rich, too_small, document_heavy,
mixed_content, not_beneficial — characterized here as an if-and-only-if
for every verdict of analyze_folder_decision: each verdict holds exactly
when its rule fires and every earlier rule fails.  In particular the
media-rich test precedes the minimum-file-count test, so a media ratio
above the threshold forces the media_rich verdict with no assumption on
the sampled file count; the last conjunct states the same precedence for
the ultimate variant SmartOrganizer.analyze_folder_content. -/
theorem classifier_first_match_order (cfg : SmartAnalysisConfig)
    (exts : List String) :
    (analyze_folder_decision cfg exts = ⟨false, "empty", 0⟩ ↔
      exts.length = 0) ∧
    (analyze_folder_decision cfg exts = ⟨true, "media_rich", exts.length⟩ ↔
      (exts.length ≠ 0 ∧
        (media_file_count exts : Rat) / (exts.length : Rat) >
          cfg.media_rich_ratio)) ∧
    (analyze_folder_decision cfg exts = ⟨false, "too_small", exts.length⟩ ↔
      (exts.length ≠ 0 ∧
        ¬((media_file_count exts : Rat) / (exts.length : Rat) >
          cfg.media_rich_ratio) ∧
        exts.length < cfg.min_files_for_organization)) ∧
    (analyze_folder_decision cfg exts = ⟨true, "document_heavy", exts.length⟩ ↔
      (exts.length ≠ 0 ∧
        ¬((media_file_count exts : Rat) / (exts.length : Rat) >
          cfg.media_rich_ratio) ∧
        ¬(exts.length < cfg.min_files_for_organization) ∧
        document_file_count exts > cfg.document_heavy_count)) ∧
    (analyze_folder_decision cfg exts = ⟨true, "mixed_content", exts.length⟩ ↔
      (exts.length ≠ 0 ∧
        ¬((media_file_count exts : Rat) / (exts.length : Rat) >
          cfg.media_rich_ratio) ∧
        ¬(exts.length < cfg.min_files_for_organization) ∧
        ¬(document_file_count exts > cfg.document_heavy_count) ∧
        (exts.length > cfg.mixed_content_file_count ∧
          exts.dedup.length > cfg.mixed_content_ext_count))) ∧
    (analyze_folder_decision cfg exts = ⟨false, "not_beneficial", exts.length⟩ ↔
      (exts.length ≠ 0 ∧
        ¬((media_file_count exts : Rat) / (exts.length : Rat) >
          cfg.media_rich_ratio) ∧
        ¬(exts.length < cfg.min_files_for_organization) ∧
        ¬(document_file_count exts > cfg.document_heavy_count) ∧
        ¬(exts.length > cfg.mixed_content_file_count ∧
          exts.dedup.length > cfg.mixed_content_ext_count))) ∧
    (∀ ucfg : AnalysisConfig, exts.length ≠ 0 →
      (SmartOrganizer.media_file_count exts : Rat) / (exts.length : Rat) >
        ucfg.media_rich_ratio →
      SmartOrganizer.analyze_folder_content ucfg exts =
        ⟨true, "media_rich", exts.length⟩) := by
  refine ⟨?_, ?_, ?_, ?_, ?_, ?_, ?_⟩
  · simp only [analyze_folder_decision]
    split_ifs with h1 h2 h3 h4 h5 <;> simp_all [ClassifyResult.mk.injEq]
  · simp only [analyze_folder_decision]
    split_ifs with h1 h2 h3 h4 h5 <;> simp_all [ClassifyResult.mk.injEq]
  · simp only [analyze_folder_decision]
    split_ifs with h1 h2 h3 h4 h5 <;> simp_all [ClassifyResult.mk.injEq]
  · simp only [analyze_folder_decision]
    split_ifs with h1 h2 h3 h4 h5 <;> simp_all [ClassifyResult.mk.injEq]
  · simp only [analyze_folder_decision]
    split_ifs with h1 h2 h3 h4 h5 <;> simp_all [ClassifyResult.mk.injEq]
  · simp only [analyze_folder_decision]
    split_ifs with h1 h2 h3 h4 h5 <;> simp_all [ClassifyResult.mk.injEq]
  · intro ucfg h0 hm
    simp only [SmartOrganizer.analyze_folder_content]
    rw [if_neg h0, if_pos hm]

/-- Claim C3 witness: three files, all jpg images, under the shipped
ANALYSIS_CONFIG (minimum 10 files for organization): the media ratio 1
exceeds 0.3, so the verdict is media_rich even though the sample is far
below the minimum file count. -/
theorem classifier_first_match_order_witness :
    analyze_folder_decision ANALYSIS_CONFIG [".jpg", ".jpg", ".jpg"]
      = ⟨true, "media_rich", 3⟩ := by
  apply ((classifier_first_match_order ANALYSIS_CONFIG
    [".jpg", ".jpg", ".jpg"]).2.1).mpr
  refine ⟨by decide, ?_⟩
  have h3 : media_file_count [".jpg", ".jpg", ".jpg"] = 3 := by decide
  rw [h3]
  norm_num [ANALYSIS_CONFIG]

/-- The dict-key accumulator of `keysInOrder` keeps keys distinct and
collects exactly the elements of the scanned list. -/
lemma foldl_insert_nodup_mem {α : Type} [DecidableEq α] (l : List α) :
    ∀ acc : List α, acc.Nodup →
      (l.foldl (fun a s => if s ∈ a then a else a ++ [s]) acc).Nodup ∧
      (∀ x, x ∈ l.foldl (fun a s => if s ∈ a then a else a ++ [s]) acc ↔
        (x ∈ acc ∨ x ∈ l)) := by
  induction l with
  | nil =>
      intro acc h
      exact ⟨h, by simp⟩
  | cons s l ih =>
      intro acc h
      simp only [List.foldl_cons]
      by_cases hs : s ∈ acc
      · obtain ⟨h1, h2⟩ := ih acc h
        rw [if_pos hs]
        refine ⟨h1, fun x => ?_⟩
        rw [h2 x]
        constructor
        · rintro (hx | hx)
          · exact Or.inl hx
          · exact Or.inr (List.mem_cons_of_mem _ hx)
        · rintro (hx | hx)
          · exact Or.inl hx
          · rcases List.mem_cons.mp hx with rfl | hx2
            · exact Or.inl hs
            · exact Or.inr hx2
      · have hnd2 : (acc ++ [s]).Nodup := by
          rw [List.nodup_append]
          refine ⟨h, List.nodup_singleton s, ?_⟩
          intro x hx hxs
          rw [List.mem_singleton] at hxs
          subst hxs
          exact hs hx
        obtain ⟨h1, h2⟩ := ih (acc ++ [s]) hnd2
        rw [if_neg hs]
        refine ⟨h1, fun x => ?_⟩
        rw [h2 x]
        simp only [List.mem_append, List.mem_singleton, List.mem_cons,
          List.not_mem_nil, or_false]
        tauto

/-- Dict keys are distinct. -/
lemma keysInOrder_nodup {α : Type} [DecidableEq α] (l : List α) :
    (keysInOrder l).Nodup :=
  (foldl_insert_nodup_mem l [] List.nodup_nil).1

/-- Dict keys are exactly the scanned values. -/
lemma mem_keysInOrder {α : Type} [DecidableEq α] {l : List α} {x : α} :
    x ∈ keysInOrder l ↔ x ∈ l := by
  rw [keysInOrder, (foldl_insert_nodup_mem l [] List.nodup_nil).2 x]
  simp

/-- Every size group is the filter of the non-zero-size records by its
key size. -/
lemma mem_size_groups {files : List FileRec} {g : Nat × List FileRec}
    (hg : g ∈ size_groups files) :
    g.2 = (files.filter (fun f => decide (0 < f.size))).filter
        (fun f => decide (f.size = g.1)) := by
  simp only [size_groups] at hg
  rcases List.mem_map.mp hg with ⟨s, _, rfl⟩
  rfl

/-- Every potential-duplicate group has two or more members and is the
filter of the non-zero-size records by a single size. -/
lemma mem_potential_duplicates {files : List FileRec} {g : List FileRec}
    (hg : g ∈ potential_duplicates files) :
    1 < g.length ∧ ∃ s : Nat,
      g = (files.filter (fun f => decide (0 < f.size))).filter
        (fun f => decide (f.size = s)) := by
  unfold potential_duplicates at hg
  have hmf := List.mem_filter.mp hg
  rcases List.mem_map.mp hmf.1 with ⟨p, hp, rfl⟩
  refine ⟨by simpa using hmf.2, p.1, mem_size_groups hp⟩

/-- Members of a potential-duplicate group have its key size and are
non-zero-size records of the scan. -/
lemma potential_duplicates_member_size {files : List FileRec}
    {g : List FileRec} (hg : g ∈ potential_duplicates files) :
    ∀ r ∈ g, 0 < r.size ∧
      g = (files.filter (fun f => decide (0 < f.size))).filter
        (fun f => decide (f.size = r.size)) := by
  rcases mem_potential_duplicates hg with ⟨_, s, rfl⟩
  intro r hr
  have h1 := List.mem_filter.mp hr
  have h2 := List.mem_filter.mp h1.1
  have hsize : r.size = s := by simpa using h1.2
  have hpos : 0 < r.size := by simpa using h2.2
  exact ⟨hpos, by rw [hsize]⟩

/-- Claim C1: the duplicate detector never groups a zero-byte record, and
a record is handed to the hashing phase (it lies in a potential-duplicate
group) only if it has non-zero size and its exact byte size is shared:
the list of non-zero-size records of that size has two or more entries.
A record lying in a size group with exactly one member is never handed to
the hashing phase. -/
theorem duplicate_detector_hashes_only_shared_sizes (files : List FileRec) :
    (∀ g ∈ size_groups files, ∀ r ∈ g.2, 0 < r.size) ∧
    (∀ r ∈ (potential_duplicates files).flatten,
      0 < r.size ∧
      1 < ((files.filter (fun f => decide (0 < f.size))).filter
            (fun f => decide (f.size = r.size))).length) ∧
    (∀ g ∈ size_groups files, g.2.length = 1 →
      ∀ r ∈ g.2, r ∉ (potential_duplicates files).flatten) := by
  refine ⟨?_, ?_, ?_⟩
  · intro g hg r hr
    rw [mem_size_groups hg] at hr
    have h1 := List.mem_filter.mp hr
    have h2 := List.mem_filter.mp h1.1
    simpa using h2.2
  · intro r hr
    rcases List.mem_flatten.mp hr with ⟨g, hg, hrg⟩
    rcases mem_potential_duplicates hg with ⟨hlen, s, rfl⟩
    rcases potential_duplicates_member_size hg r hrg with ⟨hpos, hgeq⟩
    exact ⟨hpos, by rw [← hgeq]; exact hlen⟩
  · intro g hg hlen1 r hr hflat
    have h := mem_size_groups hg
    have hrsize : r.size = g.1 := by
      rw [h] at hr
      simpa using (List.mem_filter.mp hr).2
    rcases List.mem_flatten.mp hflat with ⟨g2, hg2, hrg2⟩
    rcases potential_duplicates_member_size hg2 r hrg2 with ⟨_, hg2eq⟩
    rcases mem_potential_duplicates hg2 with ⟨hlen2, _⟩
    rw [hg2eq, hrsize, ← h] at hlen2
    omega

/-- Claim C1 witness: in the concrete scan, record a is handed to the
hashing phase, has non-zero size, and its size 5 is shared by 2 records. -/
theorem duplicate_detector_hashes_only_shared_sizes_witness :
    0 < (FileRec.mk "a" 5 none).size ∧
    1 < ((c1files.filter (fun f => decide (0 < f.size))).filter
          (fun f => decide (f.size = (FileRec.mk "a" 5 none).size))).length :=
  (duplicate_detector_hashes_only_shared_sizes c1files).2.1
    (FileRec.mk "a" 5 none) (by decide)

/-- Dict assignment preserves a property holding of all entries, provided
the written pair has it. -/
lemma dictInsert_forall {P : String × List FileRec → Prop}
    {m : List (String × List FileRec)} {k : String} {v : List FileRec}
    (hm : ∀ q ∈ m, P q) (hkv : P (k, v)) :
    ∀ q ∈ dictInsert m k v, P q := by
  intro q hq
  unfold dictInsert at hq
  by_cases hany : m.any (fun p => decide (p.1 = k))
  · rw [if_pos hany] at hq
    rcases List.mem_map.mp hq with ⟨p, hp, rfl⟩
    by_cases hpk : p.1 = k
    · rw [if_pos hpk]
      exact hkv
    · rw [if_neg hpk]
      exact hm p hp
  · rw [if_neg hany] at hq
    rcases List.mem_append.mp hq with h | h
    · exact hm q h
    · rw [List.mem_singleton] at h
      subst h
      exact hkv

/-- Every pair produced by grouping a hashed size group by hash consists
of records that carry the key hash and belong to the group. -/
lemma hash_group_pairs_members {g : List FileRec} :
    ∀ p ∈ hash_group_pairs g, ∀ f ∈ p.2, f.hash = some p.1 ∧ f ∈ g := by
  intro p hp f hf
  unfold hash_group_pairs at hp
  rcases List.mem_map.mp hp with ⟨h, _, rfl⟩
  have hmf := List.mem_filter.mp hf
  exact ⟨by simpa using hmf.2, hmf.1⟩

/-- Recording one hashed size group whose members all share size s keeps
the duplicates-dict invariant. -/
lemma add_dup_groups_forall {m : List (String × List FileRec)}
    {g : List FileRec} (s : Nat) (hm : ∀ q ∈ m, GoodPair q)
    (hg : ∀ f ∈ g, f.size = s) :
    ∀ q ∈ add_dup_groups m g, GoodPair q := by
  unfold add_dup_groups
  have key : ∀ ps : List (String × List FileRec),
      (∀ p ∈ ps, ∀ f ∈ p.2, f.hash = some p.1 ∧ f ∈ g) →
      ∀ m0 : List (String × List FileRec), (∀ q ∈ m0, GoodPair q) →
      ∀ q ∈ ps.foldl
        (fun acc p => if 1 < p.2.length then dictInsert acc p.1 p.2 else acc)
        m0, GoodPair q := by
    intro ps
    induction ps with
    | nil =>
        intro _ m0 hm0 q hq
        exact hm0 q hq
    | cons p ps ih =>
        intro hps m0 hm0
        simp only [List.foldl_cons]
        apply ih (fun p2 hp2 => hps p2 (List.mem_cons_of_mem _ hp2))
        by_cases hlen : 1 < p.2.length
        · rw [if_pos hlen]
          apply dictInsert_forall hm0
          refine ⟨hlen, fun f hfm => (hps p (List.mem_cons_self _ _) f hfm).1,
            s, fun f hfm => hg f (hps p (List.mem_cons_self _ _) f hfm).2⟩
        · rw [if_neg hlen]
          exact hm0
  exact key (hash_group_pairs g) (fun p hp => hash_group_pairs_members p hp) m hm

/-- Folding a list of size groups, each of one shared size, into the
duplicates dict keeps the invariant. -/
lemma find_duplicates_from_good (groups : List (List FileRec))
    (hf : String → Option String)
    (hgs : ∀ g ∈ groups, ∃ s : Nat, ∀ f ∈ g, f.size = s) :
    ∀ q ∈ find_duplicates_from groups hf, GoodPair q := by
  unfold find_duplicates_from
  have key : ∀ gs : List (List FileRec),
      (∀ g ∈ gs, ∃ s : Nat, ∀ f ∈ g, f.size = s) →
      ∀ m0 : List (String × List FileRec), (∀ q ∈ m0, GoodPair q) →
      ∀ q ∈ gs.foldl (fun acc g => add_dup_groups acc (_hash_files hf g)) m0,
        GoodPair q := by
    intro gs
    induction gs with
    | nil =>
        intro _ m0 hm0 q hq
        exact hm0 q hq
    | cons g gs ih =>
        intro hgs2 m0 hm0
        simp only [List.foldl_cons]
        apply ih (fun g2 h2 => hgs2 g2 (List.mem_cons_of_mem _ h2))
        rcases hgs2 g (List.mem_cons_self _ _) with ⟨s, hs⟩
        apply add_dup_groups_forall s hm0
        intro f hfm
        unfold _hash_files at hfm
        rcases List.mem_map.mp hfm with ⟨f0, hf0, rfl⟩
        exact hs f0 hf0
  exact key groups hgs [] (by intro q hq; cases hq)

/-- Every potential-duplicate group has one shared byte size. -/
lemma potential_duplicates_same_size {files : List FileRec} :
    ∀ g ∈ potential_duplicates files, ∃ s : Nat, ∀ f ∈ g, f.size = s := by
  intro g hg
  rcases mem_potential_duplicates hg with ⟨_, s, rfl⟩
  refine ⟨s, fun f hf => ?_⟩
  simpa using (List.mem_filter.mp hf).2

/-- Claim C4: every duplicate group emitted by the detector has at least
two member records, all members carry the same content hash (the group
key), and all members share one byte size (the group was formed inside a
single size group); the reported reclaimable-size estimate equals, summed
over all groups, the sizes of every member except the first. -/
theorem duplicate_groups_sound_and_savings (files : List FileRec)
    (hf : String → Option String) (kill : Bool) :
    (∀ q ∈ find_duplicates files hf,
      2 ≤ q.2.length ∧
      (∀ f ∈ q.2, f.hash = some q.1) ∧
      (∃ s : Nat, ∀ f ∈ q.2, f.size = s)) ∧
    (generate_smart_report kill files
        (find_duplicates files hf)).potential_savings_bytes
      = ((find_duplicates files hf).map
          (fun q => ((q.2.drop 1).map (fun f => f.size)).sum)).sum := by
  constructor
  · intro q hq
    exact find_duplicates_from_good _ hf potential_duplicates_same_size q hq
  · rfl

/-- Claim C4 witness: in the concrete scan, the one emitted group (key H,
records a and b of size 5) has two members, all carrying hash H and one
shared size. -/
theorem duplicate_groups_sound_and_savings_witness :
    2 ≤ (("H", [(⟨"a", 5, some "H"⟩ : FileRec), ⟨"b", 5, some "H"⟩]) :
        String × List FileRec).2.length ∧
    (∀ f ∈ (("H", [(⟨"a", 5, some "H"⟩ : FileRec), ⟨"b", 5, some "H"⟩]) :
        String × List FileRec).2, f.hash = some "H") ∧
    (∃ s : Nat, ∀ f ∈ (("H", [(⟨"a", 5, some "H"⟩ : FileRec),
        ⟨"b", 5, some "H"⟩]) : String × List FileRec).2, f.size = s) :=
  (duplicate_groups_sound_and_savings c4files c4hash false).1
    ("H", [⟨"a", 5, some "H"⟩, ⟨"b", 5, some "H"⟩]) (by decide)

/-- Claim C5 counterexample: a cancellation signal arriving during the
metadata pass makes process_directory_smart return with no report at all
(the early return at smart_organizer.py line 483), even though a
FileRecord had been produced — contradicting the claim that records
produced before the signal are always emitted as a partial result flagged
interrupted. -/
theorem cancellation_discards_metadata_phase_records :
    process_directory_smart [⟨"a", 5, none⟩] (fun _ => some "H")
      CancelPoint.duringMetadata = none := rfl

/-- Claim C5 amended: only cancellation during the hashing phase preserves
partial results — after k fully hashed size groups the run still writes
the report, flagged interrupted with the complete file inventory and the
duplicate groups found in those k groups (which still satisfy the group
invariants); an uninterrupted run writes the full report; but a signal at
the start, during file collection or during the metadata pass makes the
run return with no report, discarding the records produced so far (the
run never crashes: every path returns). -/
theorem cancellation_partial_results_amended (files : List FileRec)
    (hf : String → Option String) (k : Nat)
    (hk : k < (potential_duplicates files).length) :
    process_directory_smart files hf (CancelPoint.duringHashing k)
      = some (generate_smart_report true files
          (find_duplicates_from ((potential_duplicates files).take k) hf)) ∧
    (generate_smart_report true files
        (find_duplicates_from ((potential_duplicates files).take k) hf)).interrupted
      = true ∧
    (generate_smart_report true files
        (find_duplicates_from ((potential_duplicates files).take k) hf)).total_files
      = files.length ∧
    (∀ q ∈ find_duplicates_from ((potential_duplicates files).take k) hf,
      2 ≤ q.2.length ∧ (∀ f ∈ q.2, f.hash = some q.1)) ∧
    process_directory_smart files hf CancelPoint.never
      = some (generate_smart_report false files (find_duplicates files hf)) ∧
    process_directory_smart files hf CancelPoint.atStart = none ∧
    process_directory_smart files hf CancelPoint.duringCollection = none ∧
    process_directory_smart files hf CancelPoint.duringMetadata = none := by
  refine ⟨?_, rfl, rfl, ?_, rfl, rfl, rfl, rfl⟩
  · simp only [process_directory_smart]
    rw [if_pos hk]
  · intro q hq
    have hgood := find_duplicates_from_good
      ((potential_duplicates files).take k) hf
      (fun g hg => potential_duplicates_same_size g (List.take_subset k _ hg))
      q hq
    exact ⟨hgood.1, hgood.2.1⟩

/-- Claim C5 amended witness: with one potential-duplicate group and the
signal arriving before any group is hashed, the run still writes the
interrupted report with the full inventory and no duplicate groups. -/
theorem cancellation_partial_results_amended_witness :
    process_directory_smart c5files c5hash (CancelPoint.duringHashing 0)
      = some (generate_smart_report true c5files
          (find_duplicates_from ((potential_duplicates c5files).take 0) c5hash)) :=
  (cancellation_partial_results_amended c5files c5hash 0 (by decide)).1

mutual

/-- Soft-cap bound for the sampling loop at one directory: starting from
an accumulator within the cap, the result exceeds the cap by at most one
directory listing; and whenever the loop did not break, the result is
still within the cap. -/
theorem walkNode_length_bound (maxD maxF : Nat) (t : DirTree) (level : Nat)
    (acc : List String) (hacc : acc.length ≤ maxF) :
    (walkNode maxD maxF t level acc).1.length ≤ maxF + maxListing t ∧
    ((walkNode maxD maxF t level acc).2 = false →
      (walkNode maxD maxF t level acc).1.length ≤ maxF) := by
  cases t with
  | node fns subs =>
      rw [walkNode]
      by_cases hd : maxD < level
      · rw [if_pos hd]
        exact ⟨le_trans hacc (Nat.le_add_right _ _), fun _ => hacc⟩
      · rw [if_neg hd]
        by_cases hc : maxF < (acc ++ fns).length
        · rw [if_pos hc]
          constructor
          · have hlst : fns.length ≤ maxListing (DirTree.node fns subs) := by
              rw [maxListing]
              exact le_max_left _ _
            simp only [List.length_append]
            omega
          · intro hfalse
            cases hfalse
        · rw [if_neg hc]
          have h2 := walkList_length_bound maxD maxF subs (level + 1)
            (acc ++ fns) (le_of_not_lt hc)
          constructor
          · refine le_trans h2.1 ?_
            have hlst : maxListingList subs ≤ maxListing (DirTree.node fns subs) := by
              rw [maxListing]
              exact le_max_right _ _
            omega
          · exact h2.2

/-- Soft-cap bound for the sampling loop over sibling directories. -/
theorem walkList_length_bound (maxD maxF : Nat) (ts : List DirTree)
    (level : Nat) (acc : List String) (hacc : acc.length ≤ maxF) :
    (walkList maxD maxF ts level acc).1.length ≤ maxF + maxListingList ts ∧
    ((walkList maxD maxF ts level acc).2 = false →
      (walkList maxD maxF ts level acc).1.length ≤ maxF) := by
  cases ts with
  | nil =>
      rw [walkList]
      exact ⟨le_trans hacc (Nat.le_add_right _ _), fun _ => hacc⟩
  | cons t rest =>
      rw [walkList]
      rcases hw : walkNode maxD maxF t level acc with ⟨acc2, b⟩
      have hn := walkNode_length_bound maxD maxF t level acc hacc
      rw [hw] at hn
      cases b
      · have hacc2 : acc2.length ≤ maxF := hn.2 rfl
        have hr := walkList_length_bound maxD maxF rest level acc2 hacc2
        dsimp only
        constructor
        · refine le_trans hr.1 ?_
          have hlst : maxListingList rest ≤ maxListingList (t :: rest) := by
            rw [maxListingList]
            exact le_max_right _ _
          omega
        · exact hr.2
      · dsimp only
        constructor
        · refine le_trans hn.1 ?_
          have hlst : maxListing t ≤ maxListingList (t :: rest) := by
            rw [maxListingList]
            exact le_max_left _ _
          omega
        · intro hfalse
          cases hfalse

end

mutual

/-- Every filename collected by the sampling loop at one directory either
was already in the accumulator or lies within the depth bound of the
tree. -/
theorem walkNode_subset (maxD maxF : Nat) (t : DirTree) (level : Nat)
    (acc : List String) :
    ∀ x ∈ (walkNode maxD maxF t level acc).1,
      x ∈ acc ∨ x ∈ filesUpTo maxD t level := by
  cases t with
  | node fns subs =>
      rw [walkNode, filesUpTo]
      by_cases hd : maxD < level
      · rw [if_pos hd, if_pos hd]
        exact fun x hx => Or.inl hx
      · rw [if_neg hd, if_neg hd]
        by_cases hc : maxF < (acc ++ fns).length
        · rw [if_pos hc]
          intro x hx
          rcases List.mem_append.mp hx with h | h
          · exact Or.inl h
          · exact Or.inr (List.mem_append_left _ h)
        · rw [if_neg hc]
          intro x hx
          rcases walkList_subset maxD maxF subs (level + 1) (acc ++ fns) x hx with
            h | h
          · rcases List.mem_append.mp h with h2 | h2
            · exact Or.inl h2
            · exact Or.inr (List.mem_append_left _ h2)
          · exact Or.inr (List.mem_append_right _ h)

/-- Every filename collected by the sampling loop over siblings either was
already in the accumulator or lies within the depth bound of a sibling. -/
theorem walkList_subset (maxD maxF : Nat) (ts : List DirTree) (level : Nat)
    (acc : List String) :
    ∀ x ∈ (walkList maxD maxF ts level acc).1,
      x ∈ acc ∨ x ∈ filesUpToList maxD ts level := by
  cases ts with
  | nil =>
      rw [walkList]
      exact fun x hx => Or.inl hx
  | cons t rest =>
      rw [walkList, filesUpToList]
      rcases hw : walkNode maxD maxF t level acc with ⟨acc2, b⟩
      have hn := walkNode_subset maxD maxF t level acc
      rw [hw] at hn
      cases b
      · dsimp only
        intro x hx
        rcases walkList_subset maxD maxF rest level acc2 x hx with h | h
        · rcases hn x h with h2 | h2
          · exact Or.inl h2
          · exact Or.inr (List.mem_append_left _ h2)
        · exact Or.inr (List.mem_append_right _ h)
      · dsimp only
        intro x hx
        rcases hn x hx with h | h
        · exact Or.inl h
        · exact Or.inr (List.mem_append_left _ h)

end

/-- Outside the empty branch the verdict's file_count is the sample size. -/
lemma analyze_folder_decision_file_count (cfg : SmartAnalysisConfig)
    (exts : List String) (h : exts.length ≠ 0) :
    (analyze_folder_decision cfg exts).file_count = exts.length := by
  simp only [analyze_folder_decision]
  split_ifs with h1 h2 h3 h4 h5 <;> first | exact absurd h1 h | rfl

/-- Claim C8 counterexample: with a sample cap of 2, the classifier
inspects all three files of a flat directory — the loop extends the
sample with a whole directory listing before testing the cap — so the
verdict's file_count is 3, exceeding max_analysis_files. -/
theorem sample_cap_exceeded_counterexample :
    c8cfg.max_analysis_files <
      (analyze_folder_content c8cfg c8tree).file_count ∧
    (walkNode c8cfg.max_analysis_depth c8cfg.max_analysis_files c8tree 0 []).1.length
      = 3 := by
  constructor
  · have hwalk : ((walkNode c8cfg.max_analysis_depth c8cfg.max_analysis_files
        c8tree 0 []).1).map extOf = [".txt", ".txt", ".txt"] := by decide
    rw [analyze_folder_content, hwalk,
      analyze_folder_decision_file_count c8cfg _ (by decide)]
    decide
  · decide

/-- Claim C8 amended: the sampling loop stops adding files only after the
sample exceeds max_analysis_files, so the inspected sample is bounded by
max_analysis_files plus one directory listing (at most the largest listing
in the tree) rather than by max_analysis_files itself; every sampled file
does lie within max_depth levels, and the verdict is computed from that
bounded sample alone. -/
theorem sampling_bound_amended (maxD maxF : Nat) (t : DirTree)
    (cfg : SmartAnalysisConfig) :
    (walkNode maxD maxF t 0 []).1.length ≤ maxF + maxListing t ∧
    (∀ x ∈ (walkNode maxD maxF t 0 []).1, x ∈ filesUpTo maxD t 0) ∧
    analyze_folder_content cfg t
      = analyze_folder_decision cfg
          (((walkNode cfg.max_analysis_depth cfg.max_analysis_files t 0 []).1).map
            extOf) := by
  refine ⟨?_, ?_, rfl⟩
  · exact (walkNode_length_bound maxD maxF t 0 [] (Nat.zero_le _)).1
  · intro x hx
    rcases walkNode_subset maxD maxF t 0 [] x hx with h | h
    · exact absurd h (List.not_mem_nil x)
    · exact h

/-- Claim C8 amended witness: in the three-file directory, the sampled
file a.txt indeed lies within the depth bound. -/
theorem sampling_bound_amended_witness :
    "a.txt" ∈ filesUpTo 2 c8tree 0 :=
  (sampling_bound_amended 2 2 c8tree ANALYSIS_CONFIG).2.1 "a.txt" (by decide)
